import Mathlib

/-!
Shallow embedding of the retrieval and context-selection subsystem of the
asha-ai-chatbot repository, together with theorems settling the frozen claims.

Embedded source files:
  app/services/rag_service.py   (query enhancement, semantic search)
  app/services/jobs_reco.py     (category extraction, recommendation, formatting, keyword search, CSV load)
  app/services/llm_service.py   (follow-up resolution inside generate_structured_job_response)
  app/utils/vector_store.py     (flat L2 index construction; query semantics modelled from the spec)

Conventions of the embedding:
  Python dict-shaped job records become the structure Job whose fields are
  Option-valued: none models an absent key.  dict.get with a default becomes
  Option.getD; a direct subscript access becomes getKey, returning
  Except.error on a missing key (a KeyError).  Python str.lower is modelled
  for ASCII by pyLower; the substring test (the in operator) by strIn;
  str.split() by pySplitWs; str.split(sep) by String.splitOn.  Python dicts
  keyed by strings become insertion-ordered association lists.  Functions that
  mutate an argument are modelled by returning the post-state explicitly.
-/

/-! ### Python string primitives -/

/-- True when the first character list is an initial segment of the second. -/
def listStarts : List Char → List Char → Bool
  | [], _ => true
  | _ :: _, [] => false
  | a :: as, b :: bs => a == b && listStarts as bs

/-- True when the first character list occurs contiguously inside the second:
the Python substring test. -/
def listHas (needle : List Char) : List Char → Bool
  | [] => listStarts needle []
  | c :: rest => listStarts needle (c :: rest) || listHas needle rest

/-- Python needle in hay, on strings. -/
def strIn (needle hay : String) : Bool := listHas needle.data hay.data

/-- The 26 ASCII upper-case letters paired with their lower-case forms. -/
def asciiCaseTable : List (Char × Char) :=
  [('A','a'),('B','b'),('C','c'),('D','d'),('E','e'),('F','f'),('G','g'),('H','h'),
   ('I','i'),('J','j'),('K','k'),('L','l'),('M','m'),('N','n'),('O','o'),('P','p'),
   ('Q','q'),('R','r'),('S','s'),('T','t'),('U','u'),('V','v'),('W','w'),('X','x'),
   ('Y','y'),('Z','z')]

/-- Lower-case one character (ASCII model of Python str.lower, per character). -/
def lowerChar (c : Char) : Char :=
  match asciiCaseTable.find? (fun p => p.1 == c) with
  | some p => p.2
  | none => c

/-- ASCII model of Python str.lower. -/
def pyLower (s : String) : String := ⟨s.data.map lowerChar⟩

/-- Worker for pySplitWs: the first argument holds the reversed characters of
the word being read. -/
def pySplitWsAux : List Char → List Char → List String
  | acc, [] => if acc.isEmpty then [] else [⟨acc.reverse⟩]
  | acc, c :: rest =>
    if c.isWhitespace then
      (if acc.isEmpty then [] else [⟨acc.reverse⟩]) ++ pySplitWsAux [] rest
    else pySplitWsAux (c :: acc) rest

/-- Python str.split() with no argument: split on whitespace runs, no empty pieces. -/
def pySplitWs (s : String) : List String := pySplitWsAux [] s.data

/-- Worker for pySplitComma. -/
def pySplitCommaAux : List Char → List Char → List String
  | acc, [] => [⟨acc.reverse⟩]
  | acc, c :: rest =>
    if c == ',' then ⟨acc.reverse⟩ :: pySplitCommaAux [] rest
    else pySplitCommaAux (c :: acc) rest

/-- Python str.split with a comma separator: empty pieces are kept. -/
def pySplitComma (s : String) : List String := pySplitCommaAux [] s.data

/-- Python str.strip(): drop leading and trailing whitespace. -/
def pyStrip (s : String) : String :=
  ⟨((s.data.dropWhile Char.isWhitespace).reverse.dropWhile Char.isWhitespace).reverse⟩

/-! ### The job record

A Python job dict.  Every key the repository ever reads or writes is a field;
none models the key being absent.  The key job_type is used by jobs_reco.py,
the key type by llm_service.py and rag_service.py. -/

structure Job where
  title : Option String := none
  company : Option String := none
  location : Option String := none
  jobType : Option String := none
  workType : Option String := none
  skills : Option (List String) := none
  applyLink : Option String := none
  category : Option String := none
deriving DecidableEq, Repr

/-- Python falsiness of a job dict: a dict with no keys is falsy. -/
def Job.isEmptyRec (j : Job) : Bool :=
  j.title.isNone && j.company.isNone && j.location.isNone && j.jobType.isNone &&
  j.workType.isNone && j.skills.isNone && j.applyLink.isNone && j.category.isNone

/-- Python direct subscript access: raises KeyError (modelled as Except.error
naming the key) when the key is absent. -/
def getKey {α : Type} (o : Option α) (k : String) : Except String α :=
  match o with
  | some v => Except.ok v
  | none => Except.error k

/-- A Python dict from category name to job list, as an insertion-ordered
association list. -/
abbrev JobDb := List (String × List Job)

/-! ### rag_service.py: enhance_job_query (lines 110 to 147) -/

/-- The fixed affirmative list of rag_service.enhance_job_query line 123. -/
def affirmQueries : List String :=
  ["yes", "sure", "ok", "okay", "tell me more", "go ahead", "please"]

/-- The fixed role list of rag_service.enhance_job_query lines 131 to 132. -/
def jobRoles : List String :=
  ["developer", "engineer", "manager", "designer", "analyst",
   "scientist", "consultant", "specialist", "director"]

/-- The fixed skill list of rag_service.enhance_job_query lines 139 to 140. -/
def techSkills : List String :=
  ["python", "java", "javascript", "react", "node", "angular",
   "machine learning", "data science", "cloud", "aws", "azure"]

/-- rag_service.enhance_job_query, lines 110 to 147. -/
def enhanceJobQuery (query : String) : String :=
  let ql := pyLower query
  if affirmQueries.contains ql then
    "show me detailed information about available jobs"
  else if strIn "industry" ql || strIn "sector" ql then
    "jobs in " ++ ql ++ " industry sector"
  else
    match jobRoles.find? (fun r => strIn r ql) with
    | some role => "job openings for " ++ role ++ " positions"
    | none =>
      match techSkills.find? (fun sk => strIn sk ql) with
      | some sk => "jobs requiring " ++ sk ++ " skills"
      | none => query ++ " jobs and career opportunities"

/-! ### jobs_reco.py: extract_job_category (lines 96 to 131) -/

/-- The tech keyword list of jobs_reco.extract_job_category lines 111 to 112. -/
def techWords : List String :=
  ["software", "developer", "coding", "programming", "engineer", "tech", "data", "IT",
   "python", "java", "web", "app", "devops", "cloud", "AI", "machine learning"]

/-- The marketing keyword list of jobs_reco.extract_job_category lines 113 to 114. -/
def marketingWords : List String :=
  ["marketing", "brand", "content", "social media", "SEO", "digital", "campaign",
   "advertising", "communications", "PR"]

/-- The finance keyword list of jobs_reco.extract_job_category lines 115 to 116. -/
def financeWords : List String :=
  ["finance", "accounting", "investment", "banking", "financial", "analyst",
   "economics", "budget", "trading", "audit"]

/-- The hr keyword list of jobs_reco.extract_job_category lines 117 to 118. -/
def hrWords : List String :=
  ["HR", "human resources", "recruiting", "talent", "hiring", "people operations",
   "training", "personnel", "employees", "recruitment"]

/-- The category keyword dict of jobs_reco.extract_job_category lines 110 to 119,
in insertion order. -/
def categoryKeywords : List (String × List String) :=
  [("tech", techWords), ("marketing", marketingWords), ("finance", financeWords), ("hr", hrWords)]

/-- Concatenation of the user-authored message contents with single spaces,
jobs_reco.extract_job_category lines 99 to 103.  A message is a role-content pair. -/
def userMessagesText (msgs : List (String × String)) : String :=
  String.intercalate " " ((msgs.filter (fun m => m.1 == "user")).map (fun m => m.2))

/-- Number of keywords of one category appearing as substrings of the text,
jobs_reco.extract_job_category lines 122 to 126. -/
def keywordScore (text : String) (words : List String) : Nat :=
  (words.filter (fun w => strIn w text)).length

/-- Python max over pairs keyed by the second component: the first pair whose
key is maximal wins, because max only replaces the current best on a strictly
greater key. -/
def pyMaxBySnd (l : List (String × Nat)) : Option (String × Nat) :=
  l.foldl
    (fun acc p =>
      match acc with
      | none => some p
      | some q => if p.2 > q.2 then some p else some q)
    none

/-- jobs_reco.extract_job_category, lines 96 to 131. -/
def extractJobCategory (msgs : List (String × String)) : String :=
  let allMessages := pyLower (userMessagesText msgs)
  let scores := categoryKeywords.map (fun p => (p.1, keywordScore allMessages p.2))
  if (scores.map (fun p => p.2)).foldl Nat.max 0 > 0 then
    match pyMaxBySnd scores with
    | some p => p.1
    | none => "tech"
  else "tech"

/-! ### jobs_reco.py: get_recommended_jobs (lines 133 to 160)

The Python function mutates the list stored under the winning category when it
backfills, because jobs aliases job_database[category] and is extended in
place.  The embedding returns the pair of the result and the post-call
database. -/

/-- Python job_database.get(category, default). -/
def dbLookupD (db : JobDb) (k : String) (d : List Job) : List Job :=
  match db.find? (fun p => p.1 == k) with
  | some p => p.2
  | none => d

/-- Python key in job_database. -/
def dbHasKey (db : JobDb) (k : String) : Bool :=
  (db.find? (fun p => p.1 == k)).isSome

/-- Replace the value stored under a key, keeping dict order. -/
def dbSetVal (db : JobDb) (k : String) (v : List Job) : JobDb :=
  db.map (fun p => if p.1 == k then (p.1, v) else p)

/-- jobs_reco.get_recommended_jobs, lines 133 to 160, with the post-call
database made explicit.  The jobs list fetched for the winning category
aliases the database entry, so the in-place extend of line 157 also updates
the database whenever the category key is present. -/
def getRecommendedJobs (msgs : List (String × String)) (db : JobDb) (numJobs : Nat) :
    List Job × JobDb :=
  let category := extractJobCategory msgs
  let jobs := dbLookupD db category []
  if jobs.length < numJobs then
    let allJobs := db.foldl (fun acc p => if p.1 ≠ category then acc ++ p.2 else acc) []
    let remainingSlots := numJobs - jobs.length
    if allJobs.isEmpty = false ∧ 0 < remainingSlots then
      let jobs2 := jobs ++ allJobs.take remainingSlots
      let db2 := if dbHasKey db category then dbSetVal db category jobs2 else db
      (jobs2.take numJobs, db2)
    else (jobs.take numJobs, db)
  else (jobs.take numJobs, db)

/-! ### jobs_reco.py: format_job_listings (lines 162 to 181) -/

/-- The literal returned by jobs_reco.format_job_listings line 165 on empty input. -/
def noJobsMessage : String :=
  "No matching jobs found at this time. Please try adjusting your search criteria."

/-- One iteration of the loop of jobs_reco.format_job_listings lines 168 to 178.
The subscript accesses of title, company, location and skills can raise
KeyError; job_type and apply_link use dict.get with defaults. -/
def formatJobEntry (i : Nat) (j : Job) : Except String String :=
  match j.title, j.company, j.location, j.skills with
  | none, _, _, _ => Except.error "title"
  | some _, none, _, _ => Except.error "company"
  | some _, some _, none, _ => Except.error "location"
  | some _, some _, some _, none => Except.error "skills"
  | some title, some company, some location, some skills =>
    let jobType := j.jobType.getD "Full-time"
    let applyLink := j.applyLink.getD ""
    Except.ok ("**" ++ toString i ++ ". " ++ title ++ " at " ++ company ++ "**\n"
      ++ "üìç " ++ location ++ " | üíº " ++ jobType ++ "\n"
      ++ "üîç Skills: " ++ String.intercalate ", " skills ++ "\n"
      ++ (if applyLink ≠ "" ∧ applyLink ≠ "#" then "üîó [Apply Now](" ++ applyLink ++ ")\n" else "")
      ++ "\n")

/-- The enumerate loop of jobs_reco.format_job_listings, starting at index 1. -/
def formatJobsGo : Nat → List Job → Except String String
  | _, [] => Except.ok ""
  | i, j :: rest =>
    match formatJobEntry i j with
    | Except.error e => Except.error e
    | Except.ok entry =>
      match formatJobsGo (i + 1) rest with
      | Except.error e => Except.error e
      | Except.ok r => Except.ok (entry ++ r)

/-- jobs_reco.format_job_listings, lines 162 to 181. -/
def formatJobListings (jobs : List Job) : Except String String :=
  match jobs with
  | [] => Except.ok noJobsMessage
  | _ =>
    match formatJobsGo 1 jobs with
    | Except.error e => Except.error e
    | Except.ok body =>
      Except.ok ("Here are some job opportunities that might interest you:\n\n" ++ body
        ++ "Would you like more details about any of these positions?")

/-! ### jobs_reco.py: search_jobs (lines 183 to 206) -/

/-- Flattening of the category dict in its insertion order,
jobs_reco.search_jobs lines 192 to 194. -/
def flattenDb (db : JobDb) : List Job :=
  db.foldl (fun acc p => acc ++ p.2) []

/-- The searchable text of one job, jobs_reco.search_jobs line 199.  All four
reads are direct subscripts, so a missing key raises KeyError. -/
def jobSearchText (j : Job) : Except String String :=
  match j.title, j.company, j.location, j.skills with
  | none, _, _, _ => Except.error "title"
  | some _, none, _, _ => Except.error "company"
  | some _, some _, none, _ => Except.error "location"
  | some _, some _, some _, none => Except.error "skills"
  | some title, some company, some location, some skills =>
    Except.ok (pyLower (title ++ " " ++ company ++ " " ++ location ++ " "
      ++ String.intercalate " " skills))

/-- The search loop of jobs_reco.search_jobs lines 197 to 203. -/
def searchJobsGo (q : String) : List Job → Except String (List Job)
  | [] => Except.ok []
  | j :: rest =>
    match jobSearchText j with
    | Except.error e => Except.error e
    | Except.ok st =>
      match searchJobsGo q rest with
      | Except.error e => Except.error e
      | Except.ok ms => Except.ok (if strIn q st then j :: ms else ms)

/-- jobs_reco.search_jobs, lines 183 to 206. -/
def searchJobs (query : String) (db : JobDb) (maxResults : Nat) : Except String (List Job) :=
  match searchJobsGo (pyLower query) (flattenDb db) with
  | Except.error e => Except.error e
  | Except.ok ms => Except.ok (ms.take maxResults)

/-! ### jobs_reco.py: load_jobs_from_csv (lines 10 to 94)

The CSV reading itself is external input; a parsed CSV row is a CsvRow.  The
categorisation and the construction of the category dict follow the source. -/

structure CsvRow where
  jobTitle : String
  company : String
  location : Option String := none
  jobType : Option String := none
  skills : Option String := none
  applyLink : Option String := none
deriving DecidableEq, Repr

/-- The category keyword dict of jobs_reco.load_jobs_from_csv lines 40 to 49
(distinct from the one of extract_job_category). -/
def loadKeywords : List (String × List String) :=
  [("tech", ["python", "java", "developer", "engineer", "data", "machine learning",
             "ai", "backend", "frontend", "software", "coding", "programming", "IT"]),
   ("marketing", ["marketing", "digital", "content", "seo", "social media",
                  "brand", "communications", "PR", "advertising"]),
   ("finance", ["finance", "accounting", "banking", "financial", "analyst",
                "investment", "economics", "budget", "trading", "audit"]),
   ("hr", ["hr", "human resources", "recruiting", "talent", "hiring",
           "people operations", "training", "personnel"])]

/-- Skill-cell parsing of jobs_reco.load_jobs_from_csv lines 53 to 57: a string
cell is split on commas and stripped; a non-string cell yields the empty list. -/
def rowSkills (r : CsvRow) : List String :=
  match r.skills with
  | some s => (pySplitComma s).map pyStrip
  | none => []

/-- Category assignment of jobs_reco.load_jobs_from_csv lines 59 to 66: the
first category in dict order with any keyword occurring in the lower-cased
title-and-skills text, default other. -/
def rowCategory (r : CsvRow) : String :=
  let jobText := pyLower (r.jobTitle ++ " " ++ String.intercalate " " (rowSkills r))
  match loadKeywords.find? (fun p => p.2.any (fun kw => strIn kw jobText)) with
  | some p => p.1
  | none => "other"

/-- The job dict built at jobs_reco.load_jobs_from_csv lines 68 to 77. -/
def rowToJob (r : CsvRow) : Job :=
  { title := some r.jobTitle
    company := some r.company
    location := some (r.location.getD "Location not specified")
    jobType := some (r.jobType.getD "Full-time")
    workType := none
    skills := some (rowSkills r)
    applyLink := some (r.applyLink.getD "#")
    category := some (rowCategory r) }

/-- Appending one job under its category key, keeping dict insertion order,
jobs_reco.load_jobs_from_csv lines 79 to 83. -/
def dbAppendJob (db : JobDb) (k : String) (j : Job) : JobDb :=
  if dbHasKey db k then db.map (fun p => if p.1 == k then (p.1, p.2 ++ [j]) else p)
  else db ++ [(k, [j])]

/-- jobs_reco.load_jobs_from_csv, lines 52 to 90, over already-parsed rows:
group the rows by assigned category in encounter order, then make sure the
four named categories exist. -/
def loadJobsFromRows (rows : List CsvRow) : JobDb :=
  let d := rows.foldl (fun d r => dbAppendJob d (rowCategory r) (rowToJob r)) []
  ["tech", "marketing", "finance", "hr"].foldl
    (fun d c => if dbHasKey d c then d else d ++ [(c, [])]) d

/-! ### llm_service.py: follow-up resolution inside generate_structured_job_response
(lines 445 to 474) -/

/-- The exact affirmative list of llm_service.py line 465. -/
def exactAffirmatives : List String :=
  ["yes", "sure", "okay", "ok", "please", "definitely", "absolutely"]

/-- The broader affirmative substring list of llm_service.py line 466. -/
def broadAffirmatives : List String :=
  ["yes", "want", "like to", "interested", "tell me more"]

/-- The four matching patterns of llm_service.py lines 455 to 458, applied to
one candidate job against the lower-cased query. -/
def jobMatchesQuery (ql : String) (j : Job) : Bool :=
  let title := pyLower (j.title.getD "")
  let company := pyLower (j.company.getD "")
  (strIn title ql && strIn company ql)
  || strIn (title ++ " at " ++ company) ql
  || (strIn title ql && (pySplitWs company).any (fun part => strIn part ql))
  || ((pySplitWs title).any (fun w => strIn w ql) && strIn company ql)

/-- The candidate loop of llm_service.py lines 450 to 461: first match wins. -/
def firstMatchingJob (ql : String) : List Job → Option Job
  | [] => none
  | j :: rest => if jobMatchesQuery ql j then some j else firstMatchingJob ql rest

/-- Python falsiness of the selected_job variable: None or an empty dict. -/
def optionJobFalsy (o : Option Job) : Bool :=
  match o with
  | none => true
  | some j => j.isEmptyRec

/-- The job-selection logic of llm_service.generate_structured_job_response,
lines 445 to 474: pattern match first, then the affirmative override of lines
464 to 469, then the default to the first job of lines 472 to 474.  The
function answers none exactly when the candidate list is empty (the source
then returns its no-job-details message before reaching the selection). -/
def resolveFollowup (query : String) : List Job → Option Job
  | [] => none
  | j0 :: rest =>
    let ql := pyLower query
    let sel0 := firstMatchingJob ql (j0 :: rest)
    let sel1 :=
      if optionJobFalsy sel0 &&
         (exactAffirmatives.contains ql || broadAffirmatives.any (fun a => strIn a ql)) then
        some j0
      else sel0
    if optionJobFalsy sel1 then some j0 else sel1

/-! ### The vector index (spec section 4.1) and semantic search over job ids
(spec section 4.3)

The flat L2 index is built in app/utils/vector_store.py, but its query
procedure lives in the faiss library, outside this repository, and the
function semantic_search_job_ids called at app/services/job_features.py line
114 is absent from the sources.  Both are therefore modelled from the spec. -/

/-- Ordering of chunk indices by ascending distance to the query vector, ties
broken by ascending original chunk index.  Distances live in Int: embedding
coordinates are modelled as scaled integers, floating point being outside the
logical model. -/
def distKeyLe (dist : Nat → Int) (i j : Nat) : Prop :=
  dist i < dist j ∨ (dist i = dist j ∧ i ≤ j)

instance (dist : Nat → Int) : DecidableRel (distKeyLe dist) := by
  intro i j
  unfold distKeyLe
  infer_instance

/-- Modelled from the spec: the query operation of the Vector Index (spec
section 4.1), absent from the sources because the flat-index search lives in
the external faiss library.  Given the distance of the query vector to each of
the n stored chunk embeddings, return the k nearest chunk indices ordered by
ascending distance, ties broken by ascending original chunk index, with k
clamped to n. -/
def indexQuery (dist : Nat → Int) (n k : Nat) : List Nat :=
  (List.insertionSort (distKeyLe dist) (List.range n)).take (min k n)

/-- Squared Euclidean distance of two vectors. -/
def sqDist (u v : List Int) : Int :=
  (List.zipWith (fun a b => (a - b) * (a - b)) u v).sum

/-- The index query applied to a stored embedding matrix and a query vector. -/
def indexQueryVec (embs : List (List Int)) (qv : List Int) (k : Nat) : List Nat :=
  indexQuery (fun i => sqDist qv (embs.getD i [])) embs.length k

/-- Worker for dedupKeepFirst, carrying the elements already emitted. -/
def dedupKeepFirstAux (seen : List Nat) : List Nat → List Nat
  | [] => []
  | x :: xs =>
    if x ∈ seen then dedupKeepFirstAux seen xs
    else x :: dedupKeepFirstAux (x :: seen) xs

/-- Deduplication keeping the first occurrence of each element, preserving
rank order. -/
def dedupKeepFirst (l : List Nat) : List Nat := dedupKeepFirstAux [] l

/-- rag_service.semantic_search, lines 83 to 108: enhance the query, embed it
(the embedding provider is an external collaborator, passed as a function),
query the index, and return the chunk texts at the retrieved positions.  No
deduplication is performed and job ids are never formed. -/
def semanticSearch (embs : List (List Int)) (jobChunks : List String)
    (embed : String → List Int) (query : String) (topK : Nat) : List String :=
  let enhanced := enhanceJobQuery query
  let qv := embed enhanced
  let idxs := indexQueryVec embs qv topK
  idxs.map (fun i => jobChunks.getD i "")

/-- Modelled from the spec: semantic_search_job_ids, called at
app/services/job_features.py line 114 but absent from the sources.  Spec
section 4.3: enhance the query, embed it, query the Vector Index for the top-k
chunk indices, map each chunk index to the corresponding job id by positional
lookup, and deduplicate by id while preserving rank order. -/
def semanticSearchJobIds (embs : List (List Int)) (chunkJobIds : List Nat)
    (embed : String → List Int) (query : String) (topK : Nat) : List Nat :=
  let enhanced := enhanceJobQuery query
  let qv := embed enhanced
  let idxs := indexQueryVec embs qv topK
  dedupKeepFirst (idxs.map (fun i => chunkJobIds.getD i 0))

/-! ### Auxiliary definitions used by the statements of the claims -/

/-- The searchable text of a job when all four accessed keys are present
(total form used on the specification side of the search claim). -/
def jobSearchTextD (j : Job) : String :=
  pyLower ((j.title.getD "") ++ " " ++ (j.company.getD "") ++ " " ++ (j.location.getD "") ++ " "
    ++ String.intercalate " " (j.skills.getD []))

/-- The five category keywords of extract_job_category that contain upper-case
letters. -/
def upperCategoryKeywords : List String := ["IT", "AI", "SEO", "PR", "HR"]

/-- The category keywords of extract_job_category that are entirely free of
upper-case letters: everything except the five upper-case ones. -/
def lowerCategoryKeywords : List String :=
  ["software", "developer", "coding", "programming", "engineer", "tech", "data",
   "python", "java", "web", "app", "devops", "cloud", "machine learning",
   "marketing", "brand", "content", "social media", "digital", "campaign",
   "advertising", "communications",
   "finance", "accounting", "investment", "banking", "financial", "analyst",
   "economics", "budget", "trading", "audit",
   "human resources", "recruiting", "talent", "hiring", "people operations",
   "training", "personnel", "employees", "recruitment"]

/-! ### Concrete inputs used by counterexamples and witnesses -/

/-- A candidate whose company shares its first token with the company of
cexJob2. -/
def cexJob1 : Job := { title := some "Engineer", company := some "Beta Industries" }

/-- The second candidate of the three-job counterexample set. -/
def cexJob2 : Job := { title := some "Engineer", company := some "Beta" }

/-- The third candidate of the three-job counterexample set. -/
def cexJob3 : Job := { title := some "Analyst", company := some "Gamma" }

/-- A job dict with no keys at all: falsy in Python. -/
def cexEmptyJob : Job := {}

/-- First candidate of the witness set for follow-up resolution. -/
def wJob1 : Job := { title := some "Painter", company := some "Gamma" }

/-- Second candidate of the witness set: the one the witness query names. -/
def wJob2 : Job := { title := some "Engineer", company := some "Beta" }

/-- Third candidate of the witness set. -/
def wJob3 : Job := { title := some "Clerk", company := some "Delta" }

/-- A one-element tech category for the mutation exhibit. -/
def mutJobA : Job := { title := some "A", company := some "AC" }

/-- A one-element marketing category for the mutation exhibit. -/
def mutJobB : Job := { title := some "B", company := some "BC" }

/-- The database passed to get_recommended_jobs in the mutation exhibit. -/
def mutDb : JobDb := [("tech", [mutJobA]), ("marketing", [mutJobB])]

/-- A record missing the location key, for the formatting counterexample. -/
def noLocationJob : Job := { title := some "T", company := some "C", skills := some ["s"] }

/-- A fully populated record whose optional job_type and apply_link keys are
absent, for the formatting witness. -/
def fullJob : Job :=
  { title := some "T", company := some "C", location := some "L", skills := some ["s1", "s2"] }

/-- First CSV row of the order counterexample: categorised tech. -/
def csvRowA : CsvRow := { jobTitle := "Backend Engineer", company := "Acme" }

/-- Second CSV row of the order counterexample: categorised marketing. -/
def csvRowB : CsvRow := { jobTitle := "Marketing Lead", company := "Brandify" }

/-- Third CSV row of the order counterexample: categorised tech, so grouping
moves it in front of the marketing row. -/
def csvRowC : CsvRow := { jobTitle := "Frontend Developer", company := "Acme" }

/-! ## Theorems -/

/-! ### General lemmas about the string primitives -/

/-- Characters of an initial segment are characters of the whole. -/
theorem listStarts_subset : ∀ (n h : List Char), listStarts n h = true → ∀ c ∈ n, c ∈ h := by
  intro n
  induction n with
  | nil => intro h _ c hc; cases hc
  | cons a as ih =>
    intro h hs c hc
    cases h with
    | nil => simp [listStarts] at hs
    | cons b bs =>
      simp only [listStarts, Bool.and_eq_true, beq_iff_eq] at hs
      rcases List.mem_cons.mp hc with rfl | hc2
      · exact List.mem_cons.mpr (Or.inl hs.1)
      · exact List.mem_cons_of_mem _ (ih bs hs.2 c hc2)

theorem listHas_subset : ∀ (h n : List Char), listHas n h = true → ∀ c ∈ n, c ∈ h := by
  intro h
  induction h with
  | nil =>
    intro n hs c hc
    cases n with
    | nil => cases hc
    | cons a as => simp [listHas, listStarts] at hs
  | cons b bs ih =>
    intro n hs c hc
    simp only [listHas, Bool.or_eq_true] at hs
    rcases hs with hs | hs
    · exact listStarts_subset n (b :: bs) hs c hc
    · exact List.mem_cons_of_mem _ (ih n hs c hc)

/-- Substring occurrence on strings implies character containment. -/
theorem strIn_subset (needle hay : String) (hs : strIn needle hay = true) :
    ∀ c ∈ needle.data, c ∈ hay.data :=
  listHas_subset hay.data needle.data hs

/-! ### C4: rule order of the query enhancer -/

/-- The role-rule output never coincides with the skill-rule output: the two
templates already differ within their first four characters. -/
theorem roleOut_ne_skillOut (r sk : String) :
    ("job openings for " ++ r ++ " positions" : String) ≠ "jobs requiring " ++ sk ++ " skills" := by
  intro h
  have h2 := congrArg (fun s : String => s.data.take 4) h
  simp only [String.data_append] at h2
  have hA : (4:Nat) ≤ ("job openings for " : String).data.length := by decide
  have hB : (4:Nat) ≤ ("jobs requiring " : String).data.length := by decide
  have hA2 : (4:Nat) ≤ (("job openings for " : String).data ++ r.data).length := by
    rw [List.length_append]; exact le_trans hA (Nat.le_add_right _ _)
  have hB2 : (4:Nat) ≤ (("jobs requiring " : String).data ++ sk.data).length := by
    rw [List.length_append]; exact le_trans hB (Nat.le_add_right _ _)
  rw [List.take_append_of_le_length hA2, List.take_append_of_le_length hA,
      List.take_append_of_le_length hB2, List.take_append_of_le_length hB] at h2
  exact absurd h2 (by decide)

/-- C4 (amended): enhance_job_query evaluates its five rules in the listed
order and applies exactly the first matching one.  In particular a query that
matches neither the affirmative rule nor the industry rule and contains a role
name is rewritten by the role rule, never by the skill rule, even when it also
contains a technical skill; and the function is pure: equal inputs give equal
outputs. -/
theorem enhance_rule_order :
    (∀ a b : String, a = b → enhanceJobQuery a = enhanceJobQuery b) ∧
    (∀ q : String, pyLower q ∈ affirmQueries →
      enhanceJobQuery q = "show me detailed information about available jobs") ∧
    (∀ q : String, pyLower q ∉ affirmQueries →
      (strIn "industry" (pyLower q) = true ∨ strIn "sector" (pyLower q) = true) →
      enhanceJobQuery q = "jobs in " ++ pyLower q ++ " industry sector") ∧
    (∀ q r : String, pyLower q ∉ affirmQueries →
      strIn "industry" (pyLower q) = false → strIn "sector" (pyLower q) = false →
      jobRoles.find? (fun x => strIn x (pyLower q)) = some r →
      enhanceJobQuery q = "job openings for " ++ r ++ " positions" ∧
      ∀ sk : String, enhanceJobQuery q ≠ "jobs requiring " ++ sk ++ " skills") ∧
    (∀ q sk : String, pyLower q ∉ affirmQueries →
      strIn "industry" (pyLower q) = false → strIn "sector" (pyLower q) = false →
      jobRoles.find? (fun x => strIn x (pyLower q)) = none →
      techSkills.find? (fun x => strIn x (pyLower q)) = some sk →
      enhanceJobQuery q = "jobs requiring " ++ sk ++ " skills") ∧
    (∀ q : String, pyLower q ∉ affirmQueries →
      strIn "industry" (pyLower q) = false → strIn "sector" (pyLower q) = false →
      jobRoles.find? (fun x => strIn x (pyLower q)) = none →
      techSkills.find? (fun x => strIn x (pyLower q)) = none →
      enhanceJobQuery q = q ++ " jobs and career opportunities") := by
  refine ⟨fun a b h => by rw [h], ?_, ?_, ?_, ?_, ?_⟩
  · intro q h1
    simp [enhanceJobQuery, h1]
  · intro q h1 h2
    rcases h2 with h2 | h2 <;> simp [enhanceJobQuery, h1, h2]
  · intro q r h1 h2 h3 hr
    constructor
    · simp [enhanceJobQuery, h1, h2, h3, hr]
    · intro sk
      rw [show enhanceJobQuery q = "job openings for " ++ r ++ " positions" from by
        simp [enhanceJobQuery, h1, h2, h3, hr]]
      exact roleOut_ne_skillOut r sk
  · intro q sk h1 h2 h3 hr hsk
    simp [enhanceJobQuery, h1, h2, h3, hr, hsk]
  · intro q h1 h2 h3 hr hsk
    simp [enhanceJobQuery, h1, h2, h3, hr, hsk]

/-- C4 counterexample: the query python developer industry contains both the
role developer and the skill python, yet the industry rule, not the role rule,
produces the output. -/
theorem enhance_role_skill_cex :
    "developer" ∈ jobRoles ∧ "python" ∈ techSkills ∧
    strIn "developer" (pyLower "python developer industry") = true ∧
    strIn "python" (pyLower "python developer industry") = true ∧
    enhanceJobQuery "python developer industry" =
      "jobs in python developer industry industry sector" ∧
    enhanceJobQuery "python developer industry" ≠ "job openings for developer positions" := by
  refine ⟨by decide, by decide, by decide, by decide, by decide, by decide⟩

/-- C4 witness: the amended theorem applied to the query python developer,
which matches no earlier rule, rewrites by the role rule. -/
theorem enhance_rule_order_witness :
    enhanceJobQuery "python developer" = "job openings for developer positions" :=
  (enhance_rule_order.2.2.2.1 "python developer" "developer"
    (by decide) (by decide) (by decide) (by decide)).1

/-! ### C9: idempotence of enhancement on role-rule queries -/

/-- The role-rule output is a fixed point of enhance_job_query, for each of
the nine roles: the rewritten string matches no earlier rule and its first
role in list order is the role it names. -/
theorem roleTemplate_fixed :
    ∀ r ∈ jobRoles,
      enhanceJobQuery ("job openings for " ++ r ++ " positions") =
        "job openings for " ++ r ++ " positions" := by decide

/-- C9: for every query rewritten by the role rule (no earlier rule matches
and a role name occurs), re-applying enhance_job_query to the output returns
the output unchanged: the rewritten string re-matches the role rule with the
same role. -/
theorem enhance_idempotent_on_roles (q r : String)
    (h1 : pyLower q ∉ affirmQueries)
    (h2 : strIn "industry" (pyLower q) = false) (h3 : strIn "sector" (pyLower q) = false)
    (hr : jobRoles.find? (fun x => strIn x (pyLower q)) = some r) :
    enhanceJobQuery q = "job openings for " ++ r ++ " positions" ∧
    enhanceJobQuery (enhanceJobQuery q) = enhanceJobQuery q := by
  have hout : enhanceJobQuery q = "job openings for " ++ r ++ " positions" := by
    simp [enhanceJobQuery, h1, h2, h3, hr]
  refine ⟨hout, ?_⟩
  rw [hout]
  exact roleTemplate_fixed r (List.mem_of_find?_eq_some hr)

/-- C9 witness: the idempotence theorem applied to the concrete query
python developer jobs. -/
theorem enhance_idempotent_on_roles_witness :
    enhanceJobQuery "python developer jobs" = "job openings for developer positions" ∧
    enhanceJobQuery (enhanceJobQuery "python developer jobs") =
      enhanceJobQuery "python developer jobs" :=
  enhance_idempotent_on_roles "python developer jobs" "developer"
    (by decide) (by decide) (by decide) (by decide)

/-! ### C6: totality of format_job_listings -/

/-- One formatted entry exists whenever the four subscripted keys are present;
absent job_type and apply_link keys are defaulted and never fail. -/
theorem formatJobEntry_ok (i : Nat) (j : Job)
    (ht : j.title.isSome = true) (hc : j.company.isSome = true)
    (hl : j.location.isSome = true) (hs : j.skills.isSome = true) :
    ∃ s, formatJobEntry i j = Except.ok s := by
  obtain ⟨t, c, l, jt, wt, sk, al, cat⟩ := j
  cases t <;> cases c <;> cases l <;> cases sk <;>
    first
      | exact ⟨_, rfl⟩
      | simp_all

/-- The formatting loop succeeds on any list of records with the four
subscripted keys present. -/
theorem formatJobsGo_ok : ∀ (jobs : List Job) (i : Nat),
    (∀ j ∈ jobs, j.title.isSome = true ∧ j.company.isSome = true ∧
      j.location.isSome = true ∧ j.skills.isSome = true) →
    ∃ s, formatJobsGo i jobs = Except.ok s := by
  intro jobs
  induction jobs with
  | nil => exact fun i _ => ⟨"", rfl⟩
  | cons j rest ih =>
    intro i h
    have hj := h j (List.mem_cons_self j rest)
    obtain ⟨e, he⟩ := formatJobEntry_ok i j hj.1 hj.2.1 hj.2.2.1 hj.2.2.2
    obtain ⟨r, hr⟩ := ih (i + 1) (fun x hx => h x (List.mem_cons_of_mem _ hx))
    exact ⟨e ++ r, by simp [formatJobsGo, he, hr]⟩

/-- C6 (amended): format_job_listings returns the literal non-empty no-jobs
message on the empty list, and succeeds on every non-empty list of records
whose title, company, location and skills keys are present, defaulting absent
job_type and apply_link keys; but a record missing location or skills (or
title or company) raises a KeyError instead of being defaulted. -/
theorem format_job_listings_amended :
    formatJobListings [] = Except.ok noJobsMessage ∧
    noJobsMessage ≠ "" ∧
    ∀ jobs : List Job, jobs ≠ [] →
      (∀ j ∈ jobs, j.title.isSome = true ∧ j.company.isSome = true ∧
        j.location.isSome = true ∧ j.skills.isSome = true) →
      ∃ s, formatJobListings jobs = Except.ok s := by
  refine ⟨rfl, by decide, ?_⟩
  intro jobs hne h
  cases jobs with
  | nil => exact absurd rfl hne
  | cons j rest =>
    obtain ⟨b, hb⟩ := formatJobsGo_ok (j :: rest) 1 h
    refine ⟨"Here are some job opportunities that might interest you:\n\n" ++ b
      ++ "Would you like more details about any of these positions?", ?_⟩
    simp [formatJobListings, hb]

/-- C6 counterexample: a record with title, company and skills but no location
key makes format_job_listings raise a KeyError for location instead of
rendering a placeholder. -/
theorem format_job_listings_cex :
    formatJobListings [noLocationJob] = Except.error "location" := rfl

/-- C6 witness: the amended theorem applied to a one-record list whose
job_type and apply_link keys are absent. -/
theorem format_job_listings_witness :
    ∃ s, formatJobListings [fullJob] = Except.ok s :=
  format_job_listings_amended.2.2 [fullJob] (by decide) (by decide)

/-! ### C5: get_recommended_jobs mutates its database argument on backfill -/

/-- C5 exhibit: with two one-job categories and num_jobs three, the backfill
extend of jobs_reco.py line 157 writes through the alias into the database:
the stored tech list grows from one job to two, contradicting the read-only
treatment the spec requires. -/
theorem get_recommended_jobs_mutates :
    (getRecommendedJobs [("user", "software")] mutDb 3).2 =
      [("tech", [mutJobA, mutJobB]), ("marketing", [mutJobB])] ∧
    (getRecommendedJobs [("user", "software")] mutDb 3).2 ≠ mutDb ∧
    (getRecommendedJobs [("user", "software")] mutDb 3).1 = [mutJobA, mutJobB] :=
  ⟨by decide, by decide, by decide⟩

/-! ### C7: search_jobs returns matches in category-grouped order -/

/-- The searchable text succeeds and equals its total form whenever the four
subscripted keys are present. -/
theorem jobSearchText_ok (j : Job)
    (ht : j.title.isSome = true) (hc : j.company.isSome = true)
    (hl : j.location.isSome = true) (hs : j.skills.isSome = true) :
    jobSearchText j = Except.ok (jobSearchTextD j) := by
  obtain ⟨t, c, l, jt, wt, sk, al, cat⟩ := j
  cases t <;> cases c <;> cases l <;> cases sk <;> simp_all [jobSearchText, jobSearchTextD]

/-- The search loop computes the filter of the flattened database. -/
theorem searchJobsGo_ok (q : String) : ∀ l : List Job,
    (∀ j ∈ l, j.title.isSome = true ∧ j.company.isSome = true ∧
      j.location.isSome = true ∧ j.skills.isSome = true) →
    searchJobsGo q l = Except.ok (l.filter (fun j => strIn q (jobSearchTextD j))) := by
  intro l
  induction l with
  | nil => intro _; rfl
  | cons j rest ih =>
    intro h
    have hj := h j (List.mem_cons_self j rest)
    have he := jobSearchText_ok j hj.1 hj.2.1 hj.2.2.1 hj.2.2.2
    have hr := ih (fun x hx => h x (List.mem_cons_of_mem _ hx))
    simp [searchJobsGo, he, hr, List.filter_cons]

/-- C7 (amended): for every query, database and bound, search_jobs returns
exactly the jobs whose searchable text contains the lower-cased query as a
substring, truncated to max_results, in the order of the flattened
category-grouped database (categories in dict insertion order, load order
within each category), which is not in general the original corpus row
order. -/
theorem search_jobs_amended (query : String) (db : JobDb) (maxResults : Nat)
    (h : ∀ j ∈ flattenDb db, j.title.isSome = true ∧ j.company.isSome = true ∧
      j.location.isSome = true ∧ j.skills.isSome = true) :
    searchJobs query db maxResults =
      Except.ok (((flattenDb db).filter
        (fun j => strIn (pyLower query) (jobSearchTextD j))).take maxResults) := by
  have hgo := searchJobsGo_ok (pyLower query) (flattenDb db) h
  simp [searchJobs, hgo]

/-- C7 counterexample: a three-row corpus whose first and third rows are tech
and whose second is marketing.  Loading groups by category, so search_jobs on
the empty query (which every row matches) returns the rows as first, third,
second: not the original corpus order. -/
theorem search_jobs_order_cex :
    rowCategory csvRowA = "tech" ∧ rowCategory csvRowB = "marketing" ∧
    rowCategory csvRowC = "tech" ∧
    searchJobs "" (loadJobsFromRows [csvRowA, csvRowB, csvRowC]) 5 =
      Except.ok [rowToJob csvRowA, rowToJob csvRowC, rowToJob csvRowB] ∧
    searchJobs "" (loadJobsFromRows [csvRowA, csvRowB, csvRowC]) 5 ≠
      Except.ok [rowToJob csvRowA, rowToJob csvRowB, rowToJob csvRowC] := by
  have h4 : searchJobs "" (loadJobsFromRows [csvRowA, csvRowB, csvRowC]) 5 =
      Except.ok [rowToJob csvRowA, rowToJob csvRowC, rowToJob csvRowB] := rfl
  refine ⟨rfl, rfl, rfl, h4, ?_⟩
  intro hco
  have h5 := h4.symm.trans hco
  rw [Except.ok.injEq] at h5
  exact absurd h5 (by decide)

/-- C7 witness: the amended theorem applied to a one-category database. -/
theorem search_jobs_amended_witness :
    searchJobs "t" [("tech", [fullJob])] 5 =
      Except.ok (((flattenDb [("tech", [fullJob])]).filter
        (fun j => strIn (pyLower "t") (jobSearchTextD j))).take 5) :=
  search_jobs_amended "t" [("tech", [fullJob])] 5 (by decide)

/-! ### C8: determinism and tie-breaking of extract_job_category -/

/-- When tech reaches the maximum (even jointly), tech is returned: tech is
the first dict entry, and Python max keeps the current best on ties. -/
theorem extract_tech_of_ge (msgs : List (String × String))
    (h1 : keywordScore (pyLower (userMessagesText msgs)) techWords ≥
          keywordScore (pyLower (userMessagesText msgs)) marketingWords)
    (h2 : keywordScore (pyLower (userMessagesText msgs)) techWords ≥
          keywordScore (pyLower (userMessagesText msgs)) financeWords)
    (h3 : keywordScore (pyLower (userMessagesText msgs)) techWords ≥
          keywordScore (pyLower (userMessagesText msgs)) hrWords) :
    extractJobCategory msgs = "tech" := by
  set t := keywordScore (pyLower (userMessagesText msgs)) techWords with hT
  set m := keywordScore (pyLower (userMessagesText msgs)) marketingWords with hM
  set f := keywordScore (pyLower (userMessagesText msgs)) financeWords with hF
  set h := keywordScore (pyLower (userMessagesText msgs)) hrWords with hH
  unfold extractJobCategory
  simp only [categoryKeywords, List.map_cons, List.map_nil, List.foldl_cons, List.foldl_nil,
    pyMaxBySnd, ← hT, ← hM, ← hF, ← hH]
  by_cases hmax : 0 < ((((0:Nat).max t).max m).max f).max h
  · rw [if_pos hmax]
    split_ifs <;> simp only [] <;> (try split_ifs) <;> simp only [] <;> (try split_ifs) <;>
      first | rfl | (exfalso; omega)
  · rw [if_neg hmax]

/-- When marketing strictly beats tech and reaches the maximum, marketing is
returned. -/
theorem extract_marketing_of_gt (msgs : List (String × String))
    (h1 : keywordScore (pyLower (userMessagesText msgs)) marketingWords >
          keywordScore (pyLower (userMessagesText msgs)) techWords)
    (h2 : keywordScore (pyLower (userMessagesText msgs)) marketingWords ≥
          keywordScore (pyLower (userMessagesText msgs)) financeWords)
    (h3 : keywordScore (pyLower (userMessagesText msgs)) marketingWords ≥
          keywordScore (pyLower (userMessagesText msgs)) hrWords) :
    extractJobCategory msgs = "marketing" := by
  set t := keywordScore (pyLower (userMessagesText msgs)) techWords with hT
  set m := keywordScore (pyLower (userMessagesText msgs)) marketingWords with hM
  set f := keywordScore (pyLower (userMessagesText msgs)) financeWords with hF
  set h := keywordScore (pyLower (userMessagesText msgs)) hrWords with hH
  unfold extractJobCategory
  simp only [categoryKeywords, List.map_cons, List.map_nil, List.foldl_cons, List.foldl_nil,
    pyMaxBySnd, ← hT, ← hM, ← hF, ← hH]
  have hmax : 0 < ((((0:Nat).max t).max m).max f).max h :=
    lt_of_lt_of_le (show 0 < m by omega)
      (le_trans (le_trans (le_max_right _ m) (le_max_left _ f)) (le_max_left _ h))
  rw [if_pos hmax]
  split_ifs <;> simp only [] <;> (try split_ifs) <;> simp only [] <;> (try split_ifs) <;>
    first | rfl | (exfalso; omega)

/-- When finance strictly beats tech and marketing and reaches the maximum,
finance is returned. -/
theorem extract_finance_of_gt (msgs : List (String × String))
    (h1 : keywordScore (pyLower (userMessagesText msgs)) financeWords >
          keywordScore (pyLower (userMessagesText msgs)) techWords)
    (h2 : keywordScore (pyLower (userMessagesText msgs)) financeWords >
          keywordScore (pyLower (userMessagesText msgs)) marketingWords)
    (h3 : keywordScore (pyLower (userMessagesText msgs)) financeWords ≥
          keywordScore (pyLower (userMessagesText msgs)) hrWords) :
    extractJobCategory msgs = "finance" := by
  set t := keywordScore (pyLower (userMessagesText msgs)) techWords with hT
  set m := keywordScore (pyLower (userMessagesText msgs)) marketingWords with hM
  set f := keywordScore (pyLower (userMessagesText msgs)) financeWords with hF
  set h := keywordScore (pyLower (userMessagesText msgs)) hrWords with hH
  unfold extractJobCategory
  simp only [categoryKeywords, List.map_cons, List.map_nil, List.foldl_cons, List.foldl_nil,
    pyMaxBySnd, ← hT, ← hM, ← hF, ← hH]
  have hmax : 0 < ((((0:Nat).max t).max m).max f).max h :=
    lt_of_lt_of_le (show 0 < f by omega) (le_trans (le_max_right _ f) (le_max_left _ h))
  rw [if_pos hmax]
  split_ifs <;> simp only [] <;> (try split_ifs) <;> simp only [] <;> (try split_ifs) <;>
    first | rfl | (exfalso; omega)

/-- When hr strictly beats the three others, hr is returned. -/
theorem extract_hr_of_gt (msgs : List (String × String))
    (h1 : keywordScore (pyLower (userMessagesText msgs)) hrWords >
          keywordScore (pyLower (userMessagesText msgs)) techWords)
    (h2 : keywordScore (pyLower (userMessagesText msgs)) hrWords >
          keywordScore (pyLower (userMessagesText msgs)) marketingWords)
    (h3 : keywordScore (pyLower (userMessagesText msgs)) hrWords >
          keywordScore (pyLower (userMessagesText msgs)) financeWords) :
    extractJobCategory msgs = "hr" := by
  set t := keywordScore (pyLower (userMessagesText msgs)) techWords with hT
  set m := keywordScore (pyLower (userMessagesText msgs)) marketingWords with hM
  set f := keywordScore (pyLower (userMessagesText msgs)) financeWords with hF
  set h := keywordScore (pyLower (userMessagesText msgs)) hrWords with hH
  unfold extractJobCategory
  simp only [categoryKeywords, List.map_cons, List.map_nil, List.foldl_cons, List.foldl_nil,
    pyMaxBySnd, ← hT, ← hM, ← hF, ← hH]
  have hmax : 0 < ((((0:Nat).max t).max m).max f).max h :=
    lt_of_lt_of_le (show 0 < h by omega) (le_max_right _ h)
  rw [if_pos hmax]
  split_ifs <;> simp only [] <;> (try split_ifs) <;> simp only [] <;> (try split_ifs) <;>
    first | rfl | (exfalso; omega)

/-- When all four scores are zero, the default tech is returned. -/
theorem extract_default_tech (msgs : List (String × String))
    (h1 : keywordScore (pyLower (userMessagesText msgs)) techWords = 0)
    (h2 : keywordScore (pyLower (userMessagesText msgs)) marketingWords = 0)
    (h3 : keywordScore (pyLower (userMessagesText msgs)) financeWords = 0)
    (h4 : keywordScore (pyLower (userMessagesText msgs)) hrWords = 0) :
    extractJobCategory msgs = "tech" := by
  unfold extractJobCategory
  simp only [categoryKeywords, List.map_cons, List.map_nil, List.foldl_cons, List.foldl_nil,
    pyMaxBySnd, h1, h2, h3, h4]
  rfl

/-- C8: extract_job_category is deterministic across runs; when several
categories tie for the highest nonzero score the first category reaching the
maximum in enumeration order (tech, marketing, finance, hr) is returned; and
when all four scores are zero the default tech is returned. -/
theorem extract_category_deterministic :
    (∀ m1 m2 : List (String × String), m1 = m2 →
      extractJobCategory m1 = extractJobCategory m2) ∧
    (∀ msgs : List (String × String),
      (keywordScore (pyLower (userMessagesText msgs)) techWords ≥
         keywordScore (pyLower (userMessagesText msgs)) marketingWords ∧
       keywordScore (pyLower (userMessagesText msgs)) techWords ≥
         keywordScore (pyLower (userMessagesText msgs)) financeWords ∧
       keywordScore (pyLower (userMessagesText msgs)) techWords ≥
         keywordScore (pyLower (userMessagesText msgs)) hrWords →
       extractJobCategory msgs = "tech") ∧
      (keywordScore (pyLower (userMessagesText msgs)) marketingWords >
         keywordScore (pyLower (userMessagesText msgs)) techWords ∧
       keywordScore (pyLower (userMessagesText msgs)) marketingWords ≥
         keywordScore (pyLower (userMessagesText msgs)) financeWords ∧
       keywordScore (pyLower (userMessagesText msgs)) marketingWords ≥
         keywordScore (pyLower (userMessagesText msgs)) hrWords →
       extractJobCategory msgs = "marketing") ∧
      (keywordScore (pyLower (userMessagesText msgs)) financeWords >
         keywordScore (pyLower (userMessagesText msgs)) techWords ∧
       keywordScore (pyLower (userMessagesText msgs)) financeWords >
         keywordScore (pyLower (userMessagesText msgs)) marketingWords ∧
       keywordScore (pyLower (userMessagesText msgs)) financeWords ≥
         keywordScore (pyLower (userMessagesText msgs)) hrWords →
       extractJobCategory msgs = "finance") ∧
      (keywordScore (pyLower (userMessagesText msgs)) hrWords >
         keywordScore (pyLower (userMessagesText msgs)) techWords ∧
       keywordScore (pyLower (userMessagesText msgs)) hrWords >
         keywordScore (pyLower (userMessagesText msgs)) marketingWords ∧
       keywordScore (pyLower (userMessagesText msgs)) hrWords >
         keywordScore (pyLower (userMessagesText msgs)) financeWords →
       extractJobCategory msgs = "hr") ∧
      (keywordScore (pyLower (userMessagesText msgs)) techWords = 0 ∧
       keywordScore (pyLower (userMessagesText msgs)) marketingWords = 0 ∧
       keywordScore (pyLower (userMessagesText msgs)) financeWords = 0 ∧
       keywordScore (pyLower (userMessagesText msgs)) hrWords = 0 →
       extractJobCategory msgs = "tech")) := by
  refine ⟨fun m1 m2 h => by rw [h], fun msgs => ⟨?_, ?_, ?_, ?_, ?_⟩⟩
  · exact fun h => extract_tech_of_ge msgs h.1 h.2.1 h.2.2
  · exact fun h => extract_marketing_of_gt msgs h.1 h.2.1 h.2.2
  · exact fun h => extract_finance_of_gt msgs h.1 h.2.1 h.2.2
  · exact fun h => extract_hr_of_gt msgs h.1 h.2.1 h.2.2
  · exact fun h => extract_default_tech msgs h.1 h.2.1 h.2.2.1 h.2.2.2

/-- C8 witness: on the history banking talent, finance and hr tie at one with
the others zero, and finance (earlier in enumeration order) is returned. -/
theorem extract_category_deterministic_witness :
    extractJobCategory [("user", "banking talent")] = "finance" :=
  ((extract_category_deterministic.2 [("user", "banking talent")]).2.2.1)
    ⟨by decide, by decide, by decide⟩

/-! ### C10: upper-case keywords can never match the lower-cased text -/

/-- Lower-casing never produces an ASCII upper-case letter. -/
theorem lowerChar_ne_upper : ∀ (c : Char), ∀ p ∈ asciiCaseTable, lowerChar c ≠ p.1 := by
  intro c p hp
  unfold lowerChar
  cases hfind : asciiCaseTable.find? (fun q => q.1 == c) with
  | none =>
    simp only [hfind]
    have h2 := List.find?_eq_none.mp hfind p hp
    simp only [beq_iff_eq] at h2
    exact fun hc => h2 hc.symm
  | some q =>
    simp only [hfind]
    have hq := List.mem_of_find?_eq_some hfind
    have hall : ∀ a ∈ asciiCaseTable, ∀ b ∈ asciiCaseTable, a.2 ≠ b.1 := by decide
    exact hall q hq p hp

/-- No character of a lower-cased string is an ASCII upper-case letter. -/
theorem pyLower_no_upper (s : String) :
    ∀ c ∈ (pyLower s).data, ∀ p ∈ asciiCaseTable, c ≠ p.1 := by
  intro c hc p hp
  have hdata : (pyLower s).data = s.data.map lowerChar := rfl
  rw [hdata] at hc
  rcases List.mem_map.mp hc with ⟨x, _, rfl⟩
  exact lowerChar_ne_upper x p hp

/-- A needle containing an ASCII upper-case letter never occurs in a
lower-cased haystack. -/
theorem strIn_pyLower_false (w s : String) (c : Char) (hcw : c ∈ w.data)
    (p : Char × Char) (hp : p ∈ asciiCaseTable) (hcp : c = p.1) :
    strIn w (pyLower s) = false := by
  cases hcheck : strIn w (pyLower s) with
  | false => rfl
  | true =>
    have hmem := strIn_subset w (pyLower s) hcheck c hcw
    exact absurd hcp (pyLower_no_upper s c hmem p hp)

/-- The five upper-case category keywords of extract_job_category match no
lower-cased input at all. -/
theorem upper_keywords_never_match :
    ∀ s : String, ∀ w ∈ upperCategoryKeywords, strIn w (pyLower s) = false := by
  intro s w hw
  fin_cases hw
  · exact strIn_pyLower_false "IT" s 'I' (by decide) ('I', 'i') (by decide) rfl
  · exact strIn_pyLower_false "AI" s 'A' (by decide) ('A', 'a') (by decide) rfl
  · exact strIn_pyLower_false "SEO" s 'S' (by decide) ('S', 's') (by decide) rfl
  · exact strIn_pyLower_false "PR" s 'P' (by decide) ('P', 'p') (by decide) rfl
  · exact strIn_pyLower_false "HR" s 'H' (by decide) ('H', 'h') (by decide) rfl

/-- A keyword list none of whose members occurs in the text scores zero. -/
theorem keywordScore_zero (t : String) (words : List String)
    (h : ∀ w ∈ words, strIn w t = false) : keywordScore t words = 0 := by
  unfold keywordScore
  rw [List.length_eq_zero, List.filter_eq_nil]
  intro a ha
  simp [h a ha]

/-- C10: the five category keywords written with upper-case letters (IT, AI,
SEO, PR, HR) can never match the lower-cased message text, so a history whose
only category evidence is such a keyword leaves all four scores zero and the
default tech is returned. -/
theorem extract_upper_keywords_dead :
    (∀ s : String, ∀ w ∈ upperCategoryKeywords, strIn w (pyLower s) = false) ∧
    (∀ msgs : List (String × String),
      (∀ w ∈ lowerCategoryKeywords, strIn w (pyLower (userMessagesText msgs)) = false) →
      extractJobCategory msgs = "tech") := by
  refine ⟨upper_keywords_never_match, ?_⟩
  intro msgs hlow
  have hzero : ∀ words : List String,
      (∀ w ∈ words, w ∈ upperCategoryKeywords ∨ w ∈ lowerCategoryKeywords) →
      keywordScore (pyLower (userMessagesText msgs)) words = 0 := by
    intro words hws
    apply keywordScore_zero
    intro w hw
    rcases hws w hw with hup | hlo
    · exact upper_keywords_never_match (userMessagesText msgs) w hup
    · exact hlow w hlo
  exact extract_default_tech msgs (hzero techWords (by decide))
    (hzero marketingWords (by decide)) (hzero financeWords (by decide))
    (hzero hrWords (by decide))

/-- C10 witness: a history containing only HR yields the default tech. -/
theorem extract_upper_keywords_dead_witness :
    extractJobCategory [("user", "HR")] = "tech" :=
  extract_upper_keywords_dead.2 [("user", "HR")] (by decide)

/-! ### C1: follow-up resolution over the candidate set -/

/-- A found candidate is a member of the list and satisfies a pattern. -/
theorem firstMatchingJob_mem (ql : String) : ∀ (l : List Job) (j : Job),
    firstMatchingJob ql l = some j → j ∈ l ∧ jobMatchesQuery ql j = true := by
  intro l
  induction l with
  | nil => intro j h; simp [firstMatchingJob] at h
  | cons a rest ih =>
    intro j h
    simp only [firstMatchingJob] at h
    split at h
    · cases h
      exact ⟨List.mem_cons_self _ _, by assumption⟩
    · rcases ih j h with ⟨h1, h2⟩
      exact ⟨List.mem_cons_of_mem _ h1, h2⟩

/-- If no candidate satisfies a pattern the loop finds nothing. -/
theorem firstMatchingJob_eq_none (ql : String) : ∀ l : List Job,
    (∀ j ∈ l, jobMatchesQuery ql j = false) → firstMatchingJob ql l = none := by
  intro l
  induction l with
  | nil => intro _; rfl
  | cons a rest ih =>
    intro h
    have ha := h a (List.mem_cons_self a rest)
    simp only [firstMatchingJob, ha]
    simp only [Bool.false_eq_true, if_false]
    exact ih (fun x hx => h x (List.mem_cons_of_mem _ hx))

/-- The loop returns the first candidate in presentation order that satisfies
a pattern. -/
theorem firstMatchingJob_first (ql : String) : ∀ (l : List Job) (i : Nat) (hi : i < l.length),
    jobMatchesQuery ql (l.get ⟨i, hi⟩) = true →
    (∀ k (hk : k < l.length), k < i → jobMatchesQuery ql (l.get ⟨k, hk⟩) = false) →
    firstMatchingJob ql l = some (l.get ⟨i, hi⟩) := by
  intro l
  induction l with
  | nil => intro i hi _ _; exact absurd hi (Nat.not_lt_zero i)
  | cons a rest ih =>
    intro i hi hm hb
    cases i with
    | zero =>
      have hm0 : jobMatchesQuery ql a = true := hm
      simp only [firstMatchingJob, hm0, if_true]
      rfl
    | succ n =>
      have h0 : jobMatchesQuery ql a = false := hb 0 (by simp) (by omega)
      simp only [firstMatchingJob, h0, Bool.false_eq_true, if_false]
      have hi2 : n < rest.length := Nat.lt_of_succ_lt_succ hi
      have hb2 : ∀ k (hk : k < rest.length), k < n →
          jobMatchesQuery ql (rest.get ⟨k, hk⟩) = false := by
        intro k hk hkn
        exact hb (k + 1) (Nat.succ_lt_succ hk) (Nat.succ_lt_succ hkn)
      exact ih n hi2 hm hb2

/-- When the pattern loop finds a non-empty record, that record is the
resolved job: the affirmative override and the default never fire. -/
theorem resolve_of_found (query : String) (j0 : Job) (rest : List Job) (j : Job)
    (hf : firstMatchingJob (pyLower query) (j0 :: rest) = some j)
    (hj : j.isEmptyRec = false) :
    resolveFollowup query (j0 :: rest) = some j := by
  simp [resolveFollowup, hf, optionJobFalsy, hj]

/-- When the pattern loop finds nothing, the first job is resolved, whether or
not the query is affirmative. -/
theorem resolve_of_none (query : String) (j0 : Job) (rest : List Job)
    (hf : firstMatchingJob (pyLower query) (j0 :: rest) = none) :
    resolveFollowup query (j0 :: rest) = some j0 := by
  simp only [resolveFollowup, hf, optionJobFalsy, Bool.true_and]
  split_ifs <;> simp_all [optionJobFalsy]

/-- C1 (amended): for every non-empty candidate set whose records each have at
least one populated field, resolution returns a member of the set and never
reports no-match; if the lower-cased query satisfies one of the four patterns
for some candidate, the first such candidate in presentation order is
returned; otherwise, including for the affirmative query yes, the first job of
the set is returned. -/
theorem resolve_followup_amended (query : String) (jobs : List Job)
    (hne : jobs ≠ [])
    (hnd : ∀ j ∈ jobs, j.isEmptyRec = false) :
    (∃ j ∈ jobs, resolveFollowup query jobs = some j) ∧
    (∀ i (hi : i < jobs.length),
      jobMatchesQuery (pyLower query) (jobs.get ⟨i, hi⟩) = true →
      (∀ k (hk : k < jobs.length), k < i →
        jobMatchesQuery (pyLower query) (jobs.get ⟨k, hk⟩) = false) →
      resolveFollowup query jobs = some (jobs.get ⟨i, hi⟩)) ∧
    ((∀ j ∈ jobs, jobMatchesQuery (pyLower query) j = false) →
      resolveFollowup query jobs = jobs.head?) := by
  cases jobs with
  | nil => exact absurd rfl hne
  | cons j0 rest =>
    refine ⟨?_, ?_, ?_⟩
    · cases hf : firstMatchingJob (pyLower query) (j0 :: rest) with
      | some j =>
        have hmem := (firstMatchingJob_mem (pyLower query) (j0 :: rest) j hf).1
        exact ⟨j, hmem, resolve_of_found query j0 rest j hf (hnd j hmem)⟩
      | none => exact ⟨j0, List.mem_cons_self _ _, resolve_of_none query j0 rest hf⟩
    · intro i hi hm hb
      have hf := firstMatchingJob_first (pyLower query) (j0 :: rest) i hi hm hb
      exact resolve_of_found query j0 rest _ hf (hnd _ (List.get_mem _ _ _))
    · intro hall
      have hf := firstMatchingJob_eq_none (pyLower query) (j0 :: rest) hall
      simpa using resolve_of_none query j0 rest hf

/-- C1 counterexample.  First part: the query names the exact title and
company of job 2 of a three-job set, yet job 1 is returned, because the third
pattern accepts job 1 through the shared company token beta.  Second part:
with an empty record as job 2, job 2 is the first candidate satisfying a
pattern on the query zzz, yet job 1 is returned, because Python treats the
selected empty dict as falsy and falls through to the default. -/
theorem resolve_followup_cex :
    (strIn (pyLower "Engineer") (pyLower "tell me about the engineer at beta") = true ∧
     strIn (pyLower "Beta") (pyLower "tell me about the engineer at beta") = true ∧
     resolveFollowup "tell me about the engineer at beta" [cexJob1, cexJob2, cexJob3] =
       some cexJob1 ∧
     cexJob1 ≠ cexJob2) ∧
    (jobMatchesQuery (pyLower "zzz") cexEmptyJob = true ∧
     jobMatchesQuery (pyLower "zzz") cexJob3 = false ∧
     resolveFollowup "zzz" [cexJob3, cexEmptyJob] = some cexJob3 ∧
     cexJob3 ≠ cexEmptyJob) := by
  exact ⟨⟨by decide, by decide, by decide, by decide⟩,
    ⟨by decide, by decide, by decide, by decide⟩⟩

/-- C1 witness: the amended theorem applied to a three-job set where job 2 is
the first pattern match for a query naming its exact title and company. -/
theorem resolve_followup_amended_witness :
    resolveFollowup "tell me about the engineer at beta" [wJob1, wJob2, wJob3] = some wJob2 := by
  have h := (resolve_followup_amended "tell me about the engineer at beta"
    [wJob1, wJob2, wJob3] (by decide) (by decide)).2.1 1 (by decide) (by decide)
    (by
      intro k hk hkl
      have hk0 : k = 0 := by omega
      subst hk0
      exact (by decide :
        jobMatchesQuery (pyLower "tell me about the engineer at beta") wJob1 = false))
  exact h

/-! ### C3 and C2: the spec-modelled vector index and id-level semantic search -/

instance (dist : Nat → Int) : IsTotal Nat (distKeyLe dist) := ⟨by
  intro i j
  rcases lt_trichotomy (dist i) (dist j) with h | h | h
  · exact Or.inl (Or.inl h)
  · rcases Nat.le_total i j with hij | hij
    · exact Or.inl (Or.inr ⟨h, hij⟩)
    · exact Or.inr (Or.inr ⟨h.symm, hij⟩)
  · exact Or.inr (Or.inl h)⟩

instance (dist : Nat → Int) : IsTrans Nat (distKeyLe dist) := ⟨by
  intro a b c hab hbc
  unfold distKeyLe at *
  rcases hab with h1 | ⟨h1, h1n⟩ <;> rcases hbc with h2 | ⟨h2, h2n⟩
  · exact Or.inl (lt_trans h1 h2)
  · exact Or.inl (h2 ▸ h1)
  · exact Or.inl (h1 ▸ h2)
  · exact Or.inr ⟨h1.trans h2, le_trans h1n h2n⟩⟩

instance (dist : Nat → Int) : IsAntisymm Nat (distKeyLe dist) := ⟨by
  intro a b hab hba
  unfold distKeyLe at *
  rcases hab with h1 | ⟨h1, h1n⟩ <;> rcases hba with h2 | ⟨h2, h2n⟩ <;> omega⟩

/-- The sorted permutation underlying the index query. -/
theorem indexQuery_perm (dist : Nat → Int) (n : Nat) :
    List.Perm (List.insertionSort (distKeyLe dist) (List.range n)) (List.range n) :=
  List.perm_insertionSort _ _

/-- Core properties of the modelled index query: clamped length, valid
positions, no duplicates, sortedness with the index tie-break, and uniqueness
of the result among all distance-sorted orderings of the chunk indices. -/
theorem indexQuery_spec (dist : Nat → Int) (n k : Nat) :
    (indexQuery dist n k).length = min k n ∧
    (∀ i ∈ indexQuery dist n k, i < n) ∧
    (indexQuery dist n k).Nodup ∧
    (indexQuery dist n k).Sorted (distKeyLe dist) ∧
    (∀ l : List Nat, List.Perm l (List.range n) → l.Sorted (distKeyLe dist) →
      l.take (min k n) = indexQuery dist n k) := by
  have hperm := indexQuery_perm dist n
  have hlen : (List.insertionSort (distKeyLe dist) (List.range n)).length = n := by
    rw [hperm.length_eq, List.length_range]
  have hsorted := List.sorted_insertionSort (distKeyLe dist) (List.range n)
  refine ⟨?_, ?_, ?_, ?_, ?_⟩
  · rw [indexQuery, List.length_take, hlen]
    exact Nat.min_eq_left (Nat.min_le_right k n)
  · intro i hi
    have h1 : i ∈ List.insertionSort (distKeyLe dist) (List.range n) :=
      List.mem_of_mem_take hi
    exact List.mem_range.mp (hperm.mem_iff.mp h1)
  · exact (List.take_sublist _ _).nodup (hperm.nodup_iff.mpr (List.nodup_range n))
  · exact List.Pairwise.sublist (List.take_sublist _ _) hsorted
  · intro l hp hs
    have h2 : List.Perm l (List.insertionSort (distKeyLe dist) (List.range n)) :=
      hp.trans hperm.symm
    rw [indexQuery, List.eq_of_perm_of_sorted h2 hs hsorted]

/-- C3: the vector-index query returns min(k, N) chunk indices, each a valid
position into the chunk array (so every returned index has a corresponding
chunk text), with no duplicates, ordered by ascending distance with ties
broken by ascending original chunk index; and any distance-sorted ordering of
all chunk indices truncates to exactly this result, so identical query vector
and index state always yield identical ordered results. -/
theorem vector_index_query_spec (embs : List (List Int)) (qv : List Int) (k : Nat) :
    (indexQueryVec embs qv k).length = min k embs.length ∧
    (∀ i ∈ indexQueryVec embs qv k, i < embs.length) ∧
    (indexQueryVec embs qv k).Nodup ∧
    (indexQueryVec embs qv k).Sorted (distKeyLe (fun i => sqDist qv (embs.getD i []))) ∧
    (∀ chunks : List String, chunks.length = embs.length →
      ∀ i ∈ indexQueryVec embs qv k, ∃ c, chunks.get? i = some c) ∧
    (∀ l : List Nat, List.Perm l (List.range embs.length) →
      l.Sorted (distKeyLe (fun i => sqDist qv (embs.getD i []))) →
      l.take (min k embs.length) = indexQueryVec embs qv k) := by
  have h := indexQuery_spec (fun i => sqDist qv (embs.getD i [])) embs.length k
  refine ⟨h.1, h.2.1, h.2.2.1, h.2.2.2.1, ?_, h.2.2.2.2⟩
  intro chunks hcl i hi
  have hlt : i < chunks.length := by rw [hcl]; exact h.2.1 i hi
  exact ⟨chunks.get ⟨i, hlt⟩, List.get?_eq_get hlt⟩

/-- C3 witness: the theorem applied to a concrete three-chunk index. -/
theorem vector_index_query_spec_witness :
    (indexQueryVec [[0], [2], [1]] [0] 2).length = min 2 3 ∧
    (∃ c, (["a", "b", "c"] : List String).get? 0 = some c) :=
  ⟨(vector_index_query_spec [[0], [2], [1]] [0] 2).1,
   (vector_index_query_spec [[0], [2], [1]] [0] 2).2.2.2.2.1
     ["a", "b", "c"] (by decide) 0 (by decide)⟩

/-- Deduplication is the identity on lists without duplicates. -/
theorem dedupKeepFirstAux_of_nodup : ∀ (l seen : List Nat), l.Nodup →
    (∀ x ∈ l, x ∉ seen) → dedupKeepFirstAux seen l = l := by
  intro l
  induction l with
  | nil => intro seen _ _; rfl
  | cons x xs ih =>
    intro seen hnd hdisj
    have hx : x ∉ seen := hdisj x (List.mem_cons_self _ _)
    rw [dedupKeepFirstAux, if_neg hx]
    congr 1
    apply ih
    · exact (List.nodup_cons.mp hnd).2
    · intro y hy hmem
      rcases List.mem_cons.mp hmem with rfl | hseen
      · exact (List.nodup_cons.mp hnd).1 hy
      · exact hdisj y (List.mem_cons_of_mem _ hy) hseen

/-- Deduplication keeping first occurrences fixes duplicate-free lists. -/
theorem dedupKeepFirst_of_nodup (l : List Nat) (h : l.Nodup) : dedupKeepFirst l = l :=
  dedupKeepFirstAux_of_nodup l [] h (fun x _ hx => (List.not_mem_nil x) hx)

/-- C2: the spec-modelled semantic search over job ids maps the retrieved
chunk indices to job ids by positional lookup and deduplicates by id
preserving rank order; for 1 <= k <= N it returns exactly k distinct job ids,
each an id of the corpus, the deduplication being a no-op because the
retrieved positions are pairwise distinct and ids are unique; and for every k
it returns min(k, N) ids, fewer than k only when the corpus holds fewer. -/
theorem semantic_search_job_ids_spec (embs : List (List Int)) (chunkJobIds : List Nat)
    (embed : String → List Int) (query : String) (k : Nat)
    (hk1 : 1 ≤ k) (hk2 : k ≤ embs.length)
    (hlen : chunkJobIds.length = embs.length) (hnd : chunkJobIds.Nodup) :
    (semanticSearchJobIds embs chunkJobIds embed query k).length = k ∧
    (semanticSearchJobIds embs chunkJobIds embed query k).Nodup ∧
    (∀ jid ∈ semanticSearchJobIds embs chunkJobIds embed query k, jid ∈ chunkJobIds) ∧
    (semanticSearchJobIds embs chunkJobIds embed query k =
      (indexQueryVec embs (embed (enhanceJobQuery query)) k).map
        (fun i => chunkJobIds.getD i 0)) ∧
    (∀ k2 : Nat, (semanticSearchJobIds embs chunkJobIds embed query k2).length =
      min k2 embs.length) := by
  have hmapped : ∀ k2 : Nat,
      ((indexQueryVec embs (embed (enhanceJobQuery query)) k2).map
        (fun i => chunkJobIds.getD i 0)).Nodup := by
    intro k2
    have hidx := indexQuery_spec
      (fun i => sqDist (embed (enhanceJobQuery query)) (embs.getD i [])) embs.length k2
    apply List.Nodup.map_on
    · intro x hx y hy hxy
      have hxl : x < chunkJobIds.length := by rw [hlen]; exact hidx.2.1 x hx
      have hyl : y < chunkJobIds.length := by rw [hlen]; exact hidx.2.1 y hy
      rw [List.getD_eq_get chunkJobIds 0 hxl, List.getD_eq_get chunkJobIds 0 hyl] at hxy
      exact Fin.mk.inj ((List.Nodup.get_inj_iff hnd).mp hxy)
    · exact hidx.2.2.1
  have heq : ∀ k2 : Nat, semanticSearchJobIds embs chunkJobIds embed query k2 =
      (indexQueryVec embs (embed (enhanceJobQuery query)) k2).map
        (fun i => chunkJobIds.getD i 0) := by
    intro k2
    unfold semanticSearchJobIds
    exact dedupKeepFirst_of_nodup _ (hmapped k2)
  have hlength : ∀ k2 : Nat,
      (semanticSearchJobIds embs chunkJobIds embed query k2).length = min k2 embs.length := by
    intro k2
    rw [heq k2, List.length_map]
    exact (indexQuery_spec
      (fun i => sqDist (embed (enhanceJobQuery query)) (embs.getD i [])) embs.length k2).1
  refine ⟨?_, ?_, ?_, heq k, hlength⟩
  · rw [hlength k]
    exact Nat.min_eq_left hk2
  · rw [heq k]
    exact hmapped k
  · intro jid hjid
    rw [heq k] at hjid
    rcases List.mem_map.mp hjid with ⟨i, hi, rfl⟩
    have hidx := indexQuery_spec
      (fun i => sqDist (embed (enhanceJobQuery query)) (embs.getD i [])) embs.length k
    have hil : i < chunkJobIds.length := by rw [hlen]; exact hidx.2.1 i hi
    rw [List.getD_eq_get chunkJobIds 0 hil]
    exact List.get_mem chunkJobIds i hil

/-- C2 witness: the theorem applied to a concrete two-chunk corpus. -/
theorem semantic_search_job_ids_spec_witness :
    (semanticSearchJobIds [[0], [1]] [5, 7] (fun _ => [0]) "find jobs" 2).length = 2 :=
  (semantic_search_job_ids_spec [[0], [1]] [5, 7] (fun _ => [0]) "find jobs" 2
    (by decide) (by decide) (by decide) (by decide)).1
